import Mathlib

/-!
Verification of the `@logistically/i18n-react-core` package (the React
integration layer for an external translation engine) against its
natural-language specification.

The development shallowly embeds the relevant source files:

* `src/core/TranslationCore.ts` — the Core State Manager: its state record,
  its listener set, and the actions `translate`, `setLocale`,
  `loadTranslations`, `clearCache`.
* `src/ssr/index.ts` — the SSR helpers `serializeContext` /
  `deserializeContext` (JSON encode/decode of the `SSRContext` record).
* `src/adapters/redux.ts` — the `translationSlice` reducers and the
  `ReduxAdapter` constructor subscription.

The external `TranslationService` (package `@logistically/i18n`) is
modelled as a record of operations returning `Except Err`, mirroring that
every engine operation may throw.  TypeScript exceptions are modelled by
`Except`; a total Lean function models TypeScript code that can never
throw.  Side effects that the claims quantify over (listener
notifications, engine invocations) are made observable as an explicit
event trace.
-/

namespace I18n

/-- Exceptions thrown by the external engine, identified by their message. -/
abbrev Err := String

/-- Interpolation parameters (`Record<string, any>` restricted to the string
values the engine substitutes). -/
abbrev Params := List (String × String)

/-- Model of the configuration field `debug : boolean | { enabled,
logMissingKeys?, logPerformance? }` from `src/types` — a tagged variant of
the two dynamic shapes the source re-inspects at call time. -/
inductive DebugConfig where
  | asBool (b : Bool)
  | asRecord (enabled : Bool) (logMissingKeys : Option Bool) (logPerformance : Option Bool)
deriving DecidableEq

/-- The slice of `ReactTranslationConfig` the verified operations read. -/
structure ReactTranslationConfig where
  defaultLocale : Option String
  debug : DebugConfig
deriving DecidableEq

/-- Model of the external `TranslationService` consumed by
`TranslationCore`: each operation returns `Except Err _` because every
engine operation may throw (spec section 6).  `translate` takes key, locale
and optional params, as in the engine boundary contract. -/
structure TranslationService where
  reloadTranslations : Except Err Unit
  getKeys : String → Except Err (List String)
  translate : String → String → Option Params → Except Err String
deriving Inhabited

/-- The `TranslationState` record held by `TranslationCore`
(`src/core/TranslationCore.ts`, constructor).  `translations` is the flat
key-to-string map built by `loadTranslations`. -/
structure TranslationState where
  locale : String
  translations : List (String × String)
  isLoading : Bool
  error : Option Err
  isInitialized : Bool
deriving DecidableEq

/-- Observable effects of a `TranslationCore` action: each `setState` call
synchronously notifies every listener with the fresh snapshot
(`notifyListeners`), and every delegation to the engine is recorded. -/
inductive Event where
  | notify (s : TranslationState)
  | engineReload
  | engineGetKeys (locale : String)
  | engineTranslate (key : String) (locale : String)
  | engineClearCache
deriving DecidableEq

/-- `TranslationCore.translate` (`TranslationCore.ts` lines 128-138):
delegates to the engine with the current locale; on exception it computes
`debugConfig` (`config.debug` when that is the structured record, otherwise
a record without `logMissingKeys`), warns iff `debugConfig.logMissingKeys`
is truthy, and returns the raw key.  The returned `Bool` records whether
the `console.warn` fired; totality of the function models that `translate`
itself never throws. -/
def translate (svc : TranslationService) (cfg : ReactTranslationConfig)
    (st : TranslationState) (key : String) (params : Option Params) : String × Bool :=
  match svc.translate key st.locale params with
  | .ok s => (s, false)
  | .error _ =>
      match cfg.debug with
      | .asRecord _ lmk _ => (key, lmk = some true)
      | .asBool _ => (key, false)

/-- The key-to-translation map built inside `loadTranslations` by iterating
`keys.forEach(key => translations[key] = service.translate(key, locale))`.
Returns the engine-call events in order; a throw from `translate` aborts
the iteration at that key and propagates. -/
def buildTranslations (svc : TranslationService) (locale : String) :
    List String → List Event × Except Err (List (String × String))
  | [] => ([], .ok [])
  | k :: ks =>
    match svc.translate k locale none with
    | .error e => ([.engineTranslate k locale], .error e)
    | .ok v =>
      let rest := buildTranslations svc locale ks
      (.engineTranslate k locale :: rest.1, rest.2.map (fun tm => (k, v) :: tm))

/-- `TranslationCore.loadTranslations` (`TranslationCore.ts` lines 97-126).
Emits the first `setState({isLoading: true, error: null})` notification,
performs `reloadTranslations`, `getKeys`, and the per-key `translate`
calls, and either installs the fresh map with
`setState({translations, isLoading: false, isInitialized: true})` or (in
the `catch`) stores the error with `setState({isLoading: false, error})`
and rethrows.  Result: final state, event trace, and the outcome the
caller awaits. -/
def loadTranslations (svc : TranslationService) (st : TranslationState) (locale : String) :
    TranslationState × List Event × Except Err Unit :=
  let st1 : TranslationState := { st with isLoading := true, error := none }
  match svc.reloadTranslations with
  | .error e =>
      let st2 := { st1 with isLoading := false, error := some e }
      (st2, [.notify st1, .engineReload, .notify st2], .error e)
  | .ok _ =>
    match svc.getKeys locale with
    | .error e =>
        let st2 := { st1 with isLoading := false, error := some e }
        (st2, [.notify st1, .engineReload, .engineGetKeys locale, .notify st2], .error e)
    | .ok keys =>
      match buildTranslations svc locale keys with
      | (evs, .error e) =>
          let st2 := { st1 with isLoading := false, error := some e }
          (st2, [.notify st1, .engineReload, .engineGetKeys locale] ++ evs ++ [.notify st2],
            .error e)
      | (evs, .ok m) =>
          let st2 := { st1 with translations := m, isLoading := false, isInitialized := true }
          (st2, [.notify st1, .engineReload, .engineGetKeys locale] ++ evs ++ [.notify st2],
            .ok ())

/-- `TranslationCore.setLocale` (`TranslationCore.ts` lines 73-95): returns
immediately when the locale is unchanged; otherwise sets the locale with
the loading flag, awaits `loadTranslations`, and on success clears loading
and marks initialized, on failure stores the error and rethrows. -/
def setLocale (svc : TranslationService) (st : TranslationState) (locale : String) :
    TranslationState × List Event × Except Err Unit :=
  if st.locale = locale then (st, [], .ok ())
  else
    let st1 := { st with locale := locale, isLoading := true, error := none }
    let load := loadTranslations svc st1 locale
    match load.2.2 with
    | .ok _ =>
        let st3 := { load.1 with isLoading := false, isInitialized := true }
        (st3, .notify st1 :: load.2.1 ++ [.notify st3], .ok ())
    | .error e =>
        let st3 := { load.1 with isLoading := false, error := some e }
        (st3, .notify st1 :: load.2.1 ++ [.notify st3], .error e)

/-- `TranslationCore.clearCache` (`TranslationCore.ts` lines 172-174):
delegates to the engine's `clearCache` and touches nothing else — no
`setState`, hence no state change and no notification. -/
def clearCache (st : TranslationState) : TranslationState × List Event :=
  (st, [.engineClearCache])

/-! ### Listener registry (`subscribe` / `notifyListeners`)

`TranslationCore` keeps `listeners : Set<(state) => void>`; `subscribe`
adds a listener and returns a closure that deletes it, and every
`setState` synchronously invokes each currently registered listener with
the fresh snapshot (`TranslationCore.ts` lines 42-54).  Listener
identity (JavaScript function identity in the `Set`) is modelled by a
natural number; deliveries are recorded in arrival order. -/

/-- One interaction with the listener registry: `sub`/`unsub` are a
`subscribe` call and the invocation of the unsubscribe closure it
returned; `set s` is a `setState` call whose merged result state is `s`. -/
inductive Op where
  | sub (id : Nat)
  | unsub (id : Nat)
  | set (s : TranslationState)
deriving DecidableEq

/-- Registry state: the `Set` of registered listeners (insertion order) and
the log of listener invocations `(listener, snapshot)` so far. -/
structure Registry where
  active : List Nat
  delivered : List (Nat × TranslationState)
deriving DecidableEq

/-- One step of the registry: `Set.add` (no-op when present), `Set.delete`,
and `notifyListeners` which appends one invocation per registered
listener. -/
def stepOp (m : Registry) : Op → Registry
  | .sub id => if id ∈ m.active then m else { m with active := m.active ++ [id] }
  | .unsub id => { m with active := m.active.filter (fun x => x ≠ id) }
  | .set s => { m with delivered := m.delivered ++ m.active.map (fun id => (id, s)) }

/-- Run a sequence of registry interactions. -/
def runOps (m : Registry) : List Op → Registry
  | [] => m
  | op :: ops => runOps (stepOp m op) ops

/-- The snapshots delivered to one particular listener, in order. -/
def deliveredTo (id : Nat) (m : Registry) : List TranslationState :=
  (m.delivered.filter (fun q => q.1 == id)).map Prod.snd

/-- The state snapshots of the `setState` transitions in a trace, in order. -/
def setSnapshots (ops : List Op) : List TranslationState :=
  ops.filterMap (fun op => match op with | .set s => some s | _ => none)

/-! ### Redux adapter (`src/adapters/redux.ts`) -/

/-- Serializable error record kept inside the Redux store. -/
structure SerializableError where
  message : String
  name : String
  stack : Option String
deriving DecidableEq

/-- The `performanceMetrics` sub-record of the Redux slice state. -/
structure PerformanceMetrics where
  translationTime : Nat
  cacheHitRate : Nat
  lastCacheCleanup : Nat
deriving DecidableEq

/-- `ReduxTranslationState`: the slice state mirroring `TranslationState`
plus the Redux-specific extensions. -/
structure ReduxTranslationState where
  locale : String
  translations : List (String × String)
  isLoading : Bool
  error : Option SerializableError
  isInitialized : Bool
  lastUpdated : Nat
  pendingActions : List String
  performanceMetrics : PerformanceMetrics
deriving DecidableEq

/-- The `clearCache` reducer of `translationSlice` (`redux.ts`): sets
`translations` to the empty object and stamps `lastCacheCleanup` and
`lastUpdated` with `Date.now()`, modelled by the explicit `now`
parameter. -/
def clearCacheReducer (now : Nat) (st : ReduxTranslationState) : ReduxTranslationState :=
  { st with
      translations := []
      performanceMetrics := { st.performanceMetrics with lastCacheCleanup := now }
      lastUpdated := now }

/-- The discrete slice actions the `ReduxAdapter` constructor can dispatch
into the store when mirroring a manager state transition. -/
inductive ReduxAction where
  | setTranslations (m : List (String × String))
  | setLocale (l : String)
  | setLoading (b : Bool)
  | setError (e : Option Err)
  | setInitialized (b : Bool)
deriving DecidableEq

/-- The `ReduxAdapter` constructor subscription (`redux.ts`): on each
manager update it dispatches, in order, `setTranslations`, `setLocale`,
`setLoading`, `setError`, `setInitialized` with the fields of the new
snapshot. -/
def reduxSyncDispatches (s : TranslationState) : List ReduxAction :=
  [.setTranslations s.translations, .setLocale s.locale, .setLoading s.isLoading,
   .setError s.error, .setInitialized s.isInitialized]

/-! ### Overlapping `setLocale` calls (cooperative-interleaving model)

Per spec section 5 the engine response is awaited at the translation-load
boundary, so a `setLocale` execution decomposes at its suspension point
into a synchronous prefix and a completion continuation.  The prefix is
`setLocale`'s first `setState({locale, isLoading: true, error: null})`
followed by `loadTranslations`' first
`setState({isLoading: true, error: null})`; once the engine work for the
load resolves with a key map `m`, the continuation is `loadTranslations`'
success `setState({translations: m, isLoading: false, isInitialized:
true})` followed by `setLocale`'s
`setState({isLoading: false, isInitialized: true})`.  No generation
counter is attached to either part. -/

/-- Synchronous prefix of `setLocale(locale)` up to the await on the
engine-backed load (including the unchanged-locale guard). -/
def setLocaleStart (st : TranslationState) (locale : String) : TranslationState :=
  if st.locale = locale then st
  else { st with locale := locale, isLoading := true, error := none }

/-- Completion continuation run when the load started by
`setLocale` resolves with the key map `m`: `loadTranslations`' success
`setState` followed by `setLocale`'s success `setState`. -/
def setLocaleFinish (st : TranslationState) (m : List (String × String)) : TranslationState :=
  let afterLoad := { st with translations := m, isLoading := false, isInitialized := true }
  { afterLoad with isLoading := false, isInitialized := true }

/-- The interleaving named by the spec: `setLocale('fr')` starts, then
`setLocale('es')` starts, then the `'es'` load completes with `esMap`,
then the `'fr'` load completes with `frMap`. -/
def racedFinalState (st0 : TranslationState) (frMap esMap : List (String × String)) :
    TranslationState :=
  let a := setLocaleStart st0 ("fr")
  let b := setLocaleStart a ("es")
  let c := setLocaleFinish b esMap
  setLocaleFinish c frMap

/-! ### SSR context serialization (`src/ssr/index.ts`)

`serializeContext` is `JSON.stringify(context)` and `deserializeContext`
is `JSON.parse(serialized)` guarded by a `catch` that returns the fixed
default context.  `JSON.parse` performs no shape validation, so the value
`deserializeContext` hands back is exactly the parsed JSON value; the
dynamic (JavaScript) value is modelled by the `Json` syntax tree below,
and a typed `SSRContext` appears at runtime as its `ctxToJson` image.
`JSON.stringify` / `JSON.parse` are JavaScript builtins, embedded here as
a printer and a recursive-descent parser for the JSON grammar.  The
parser keeps a numeric literal as its lexeme (the claims never touch
floating-point values), reads an object into its field list in source
order, and uses a step budget of `2 * input length + 1`, which bounds the
recursion depth: every parser level consumes at least one input
character, so the budget cannot run out on accepted input. -/

/-- Dynamic JSON value (the result of `JSON.parse`). -/
inductive Json where
  | null
  | bool (b : Bool)
  | num (lexeme : String)
  | str (s : String)
  | arr (elems : List Json)
  | obj (fields : List (String × Json))

/-- Hexadecimal digit character, lowercase, as `JSON.stringify` emits in
`\u00XX` escapes. -/
def hexChar (n : Nat) : Char :=
  Char.ofNat (if n < 10 then 48 + n else 87 + n)

/-- Escaping of one string character, exactly as `JSON.stringify` does:
quote, backslash and the named control escapes use two-character escapes,
the remaining control characters use `\u00XX`, everything else is output
literally. -/
def escapeChar (c : Char) : List Char :=
  if c = '"' then ['\\', '"']
  else if c = '\\' then ['\\', '\\']
  else if c = '\x08' then ['\\', 'b']
  else if c = '\x09' then ['\\', 't']
  else if c = '\x0a' then ['\\', 'n']
  else if c = '\x0c' then ['\\', 'f']
  else if c = '\x0d' then ['\\', 'r']
  else if c.toNat < 0x20 then
    let hi := hexChar (c.toNat / 16)
    let lo := hexChar (c.toNat % 16)
    '\\' :: 'u' :: '0' :: '0' :: hi :: [lo]
  else [c]

/-- Escape a whole string body. -/
def escapeList : List Char → List Char
  | [] => []
  | c :: cs => escapeChar c ++ escapeList cs

mutual

/-- Printer for JSON values (`JSON.stringify` with no indentation). -/
def renderJson : Json → List Char
  | .null => 'n' :: 'u' :: 'l' :: ['l']
  | .bool true => 't' :: 'r' :: 'u' :: ['e']
  | .bool false => 'f' :: 'a' :: 'l' :: 's' :: ['e']
  | .num s => s.toList
  | .str s => '"' :: escapeList s.toList ++ ['"']
  | .arr xs => '[' :: renderElems xs ++ [']']
  | .obj fs => '\x7b' :: renderFields fs ++ ['\x7d']

/-- Comma-separated rendering of array elements. -/
def renderElems : List Json → List Char
  | [] => []
  | [x] => renderJson x
  | x :: y :: xs => renderJson x ++ ',' :: renderElems (y :: xs)

/-- Comma-separated rendering of object fields, each as `"key":value`. -/
def renderFields : List (String × Json) → List Char
  | [] => []
  | [(k, v)] => '"' :: escapeList k.toList ++ '"' :: ':' :: renderJson v
  | (k, v) :: g :: fs =>
      ('"' :: escapeList k.toList ++ '"' :: ':' :: renderJson v) ++ ',' :: renderFields (g :: fs)

end

/-- JSON insignificant whitespace. -/
def isWsChar (c : Char) : Bool :=
  c = ' ' || c = '\x09' || c = '\x0a' || c = '\x0d'

/-- Skip leading insignificant whitespace. -/
def skipWs : List Char → List Char
  | [] => []
  | c :: cs => if isWsChar c then skipWs cs else c :: cs

/-- Value of one hexadecimal digit character. -/
def hexVal (c : Char) : Option Nat :=
  let n := c.toNat
  if 48 ≤ n ∧ n ≤ 57 then some (n - 48)
  else if 97 ≤ n ∧ n ≤ 102 then some (n - 87)
  else if 65 ≤ n ∧ n ≤ 70 then some (n - 55)
  else none

/-- Decoding of a two-character string escape. -/
def escDecode : Char → Option Char
  | '"' => some ('"')
  | '\\' => some ('\\')
  | '/' => some ('/')
  | 'b' => some ('\x08')
  | 'f' => some ('\x0c')
  | 'n' => some ('\x0a')
  | 'r' => some ('\x0d')
  | 't' => some ('\x09')
  | _ => none

/-- Parse a string body after the opening quote, up to and including the
closing quote; rejects raw control characters and malformed escapes, as
`JSON.parse` does. -/
def parseStrBody : List Char → Option (List Char × List Char)
  | [] => none
  | c :: cs =>
    if c = '"' then some ([], cs)
    else if c = '\\' then
      match cs with
      | [] => none
      | e :: cs' =>
        if e = 'u' then
          match cs' with
          | h1 :: h2 :: h3 :: h4 :: cs'' =>
            match hexVal h1, hexVal h2, hexVal h3, hexVal h4 with
            | some a, some b, some c3, some d =>
              (parseStrBody cs'').map
                (fun p => (Char.ofNat (((a * 16 + b) * 16 + c3) * 16 + d) :: p.1, p.2))
            | _, _, _, _ => none
          | _ => none
        else
          match escDecode e with
          | some d => (parseStrBody cs').map (fun p => (d :: p.1, p.2))
          | none => none
    else if c.toNat < 0x20 then none
    else (parseStrBody cs).map (fun p => (c :: p.1, p.2))

/-- Decimal digit test. -/
def isDigitChar (c : Char) : Bool := '0' ≤ c && c ≤ '9'

/-- Take a maximal run of decimal digits. -/
def takeDigits : List Char → List Char × List Char
  | [] => ([], [])
  | c :: cs =>
    if isDigitChar c then
      let p := takeDigits cs
      (c :: p.1, p.2)
    else ([], c :: cs)

/-- Integer part of a JSON number: a single `0`, or a nonzero digit
followed by digits. -/
def parseIntPart : List Char → Option (List Char × List Char)
  | [] => none
  | c :: cs =>
    if c = '0' then some ([c], cs)
    else if isDigitChar c then
      let p := takeDigits cs
      some (c :: p.1, p.2)
    else none

/-- Optional fraction part `.digits`; a dot not followed by a digit is left
unconsumed (the caller then fails on the leftover input, as `JSON.parse`
rejects such numbers). -/
def parseFracPart (cs : List Char) : List Char × List Char :=
  match cs with
  | '.' :: cs' =>
    match takeDigits cs' with
    | ([], _) => ([], cs)
    | (ds, r) => ('.' :: ds, r)
  | _ => ([], cs)

/-- Optional exponent part `e[+-]?digits`, with the same leftover
convention as `parseFracPart`. -/
def parseExpPart (cs : List Char) : List Char × List Char :=
  match cs with
  | c :: rest =>
    if c = 'e' || c = 'E' then
      let sgn : List Char × List Char :=
        match rest with
        | s :: r' => if s = '+' || s = '-' then ([s], r') else ([], rest)
        | [] => ([], rest)
      match takeDigits sgn.2 with
      | ([], _) => ([], cs)
      | (ds, r) => (c :: sgn.1 ++ ds, r)
    else ([], cs)
  | [] => ([], [])

/-- Parse a JSON numeric literal, keeping its lexeme. -/
def parseNum (cs : List Char) : Option (String × List Char) :=
  let neg : List Char × List Char :=
    match cs with
    | '-' :: r => (['-'], r)
    | _ => ([], cs)
  match parseIntPart neg.2 with
  | none => none
  | some (ip, cs2) =>
    let fp := parseFracPart cs2
    let ep := parseExpPart fp.2
    some (String.mk (neg.1 ++ ip ++ fp.1 ++ ep.1), ep.2)

mutual

/-- Parse one JSON value (recursive descent; `fuel` bounds the recursion
depth, see the section comment). -/
def parseVal : Nat → List Char → Option (Json × List Char)
  | 0, _ => none
  | fuel + 1, cs =>
    match skipWs cs with
    | [] => none
    | c :: rest =>
      if c = 'n' then
        match rest with
        | 'u' :: more =>
          match more with
          | 'l' :: 'l' :: r => some (.null, r)
          | _ => none
        | _ => none
      else if c = 't' then
        match rest with
        | 'r' :: more =>
          match more with
          | 'u' :: 'e' :: r => some (.bool true, r)
          | _ => none
        | _ => none
      else if c = 'f' then
        match rest with
        | 'a' :: more =>
          match more with
          | 'l' :: 's' :: 'e' :: r => some (.bool false, r)
          | _ => none
        | _ => none
      else if c = '"' then
        (parseStrBody rest).map (fun p => (.str (String.mk p.1), p.2))
      else if c = '[' then
        (parseElems fuel rest).map (fun p => (.arr p.1, p.2))
      else if c = '\x7b' then
        (parseFields fuel rest).map (fun p => (.obj p.1, p.2))
      else if c = '-' || isDigitChar c then
        (parseNum (c :: rest)).map (fun p => (.num p.1, p.2))
      else none

/-- Parse the element list of an array after `[`, up to and including the
closing `]`. -/
def parseElems : Nat → List Char → Option (List Json × List Char)
  | 0, _ => none
  | fuel + 1, cs =>
    match skipWs cs with
    | [] => none
    | c :: rest =>
      if c = ']' then some ([], rest)
      else
        match parseVal fuel (c :: rest) with
        | none => none
        | some (x, r1) =>
          match skipWs r1 with
          | [] => none
          | c2 :: r2 =>
            if c2 = ',' then
              match parseElems fuel r2 with
              | some (xs, r3) => some (x :: xs, r3)
              | none => none
            else if c2 = ']' then some ([x], r2)
            else none

/-- Parse the field list of an object after the opening brace, up to and
including the closing brace. -/
def parseFields : Nat → List Char → Option (List (String × Json) × List Char)
  | 0, _ => none
  | fuel + 1, cs =>
    match skipWs cs with
    | [] => none
    | c :: rest =>
      if c = '\x7d' then some ([], rest)
      else if c = '"' then
        match parseStrBody rest with
        | none => none
        | some (k, r1) =>
          match skipWs r1 with
          | [] => none
          | c2 :: r2 =>
            if c2 = ':' then
              match parseVal fuel r2 with
              | none => none
              | some (v, r3) =>
                match skipWs r3 with
                | [] => none
                | c3 :: r4 =>
                  if c3 = ',' then
                    match parseFields fuel r4 with
                    | some (fs, r5) => some ((String.mk k, v) :: fs, r5)
                    | none => none
                  else if c3 = '\x7d' then some ([(String.mk k, v)], r4)
                  else none
            else none
      else none

end

/-- `JSON.parse`: parse one value and require only trailing whitespace
after it; any violation of the JSON grammar is a thrown `SyntaxError`,
modelled as `none`. -/
def parseJson (s : String) : Option Json :=
  let cs := s.toList
  match parseVal (2 * cs.length + 1) cs with
  | some (j, rest) => if skipWs rest = [] then some j else none
  | none => none

/-- The `SSRContext` record (`src/types`): locale, flat translations map,
preloaded locale list. -/
structure SSRContext where
  locale : String
  translations : List (String × String)
  preloadedLocales : List String
deriving DecidableEq

/-- The dynamic JSON value of an `SSRContext` record: an object literal
with the fields in declaration order. -/
def ctxToJson (c : SSRContext) : Json :=
  .obj [(("locale"), .str c.locale),
        (("translations"), .obj (c.translations.map (fun kv => (kv.1, .str kv.2)))),
        (("preloadedLocales"), .arr (c.preloadedLocales.map .str))]

/-- The fixed default context returned by `deserializeContext` when
`JSON.parse` throws. -/
def defaultContext : SSRContext :=
  { locale := ("en"), translations := [], preloadedLocales := [] }

/-- `SSRTranslationUtils.serializeContext` (`src/ssr/index.ts` lines
52-54): `JSON.stringify(context)`. -/
def serializeContext (c : SSRContext) : String :=
  String.mk (renderJson (ctxToJson c))

/-- `SSRTranslationUtils.deserializeContext` (`src/ssr/index.ts` lines
56-67): `JSON.parse` inside a `try`; the `catch` returns the fixed
default context.  The result is the raw parsed value — the source performs
no field validation. -/
def deserializeContext (s : String) : Json :=
  match parseJson s with
  | some j => j
  | none => ctxToJson defaultContext

mutual

/-- JSON values free of numeric literals (every value `serializeContext`
emits is of this shape); used to state the print/parse round trip. -/
def noNum (j : Json) : Bool :=
  match j with
  | .num _ => false
  | .arr xs => noNumList xs
  | .obj fs => noNumFields fs
  | _ => true

/-- All elements free of numeric literals. -/
def noNumList (xs : List Json) : Bool :=
  match xs with
  | [] => true
  | x :: more => noNum x && noNumList more

/-- All field values free of numeric literals. -/
def noNumFields (fs : List (String × Json)) : Bool :=
  match fs with
  | [] => true
  | (_k, v) :: more => noNum v && noNumFields more

end

mutual

/-- Parser step budget sufficient to parse a given value. -/
def fuelNeeded (j : Json) : Nat :=
  match j with
  | .arr xs => 1 + fuelList xs
  | .obj fs => 1 + fuelFields fs
  | _ => 1

/-- Budget sufficient for an element list. -/
def fuelList (xs : List Json) : Nat :=
  match xs with
  | [] => 1
  | x :: more => 1 + fuelNeeded x + fuelList more

/-- Budget sufficient for a field list. -/
def fuelFields (fs : List (String × Json)) : Nat :=
  match fs with
  | [] => 1
  | (_k, v) :: more => 1 + fuelNeeded v + fuelFields more

end

/-! ### Concrete instances used by the witness theorems -/

/-- An engine whose every operation throws. -/
def failingService : TranslationService :=
  { reloadTranslations := .error ("boom")
    getKeys := fun _ => .error ("boom")
    translate := fun _ _ _ => .error ("boom") }

/-- An engine exposing one key, `welcome.title`, translated to `Welcome`. -/
def workingService : TranslationService :=
  { reloadTranslations := .ok ()
    getKeys := fun _ => .ok [("welcome.title")]
    translate := fun _ _ _ => .ok ("Welcome") }

/-- A configuration whose debug policy is the structured record with
`logMissingKeys: true`. -/
def loggingConfig : ReactTranslationConfig :=
  { defaultLocale := some ("en"), debug := .asRecord true (some true) none }

/-- The initial manager state for default locale `en`. -/
def initialState : TranslationState :=
  { locale := ("en"), translations := [], isLoading := false
    error := none, isInitialized := false }

/-- An empty listener registry. -/
def emptyRegistry : Registry := { active := [], delivered := [] }

/-- A sample SSR context. -/
def sampleContext : SSRContext :=
  { locale := ("fr")
    translations := [(("welcome.title"), ("Bienvenue"))]
    preloadedLocales := [("en"), ("fr")] }

/-! ### Helper lemmas -/

theorem fuelNeeded_pos (j : Json) : 1 ≤ fuelNeeded j := by
  cases j <;> simp [fuelNeeded]

theorem fuelList_pos (xs : List Json) : 1 ≤ fuelList xs := by
  match xs with
  | [] => simp [fuelList]
  | x :: xs => simp [fuelList]; omega

theorem fuelFields_pos (fs : List (String × Json)) : 1 ≤ fuelFields fs := by
  match fs with
  | [] => simp [fuelFields]
  | (k, v) :: fs => simp [fuelFields]; omega

theorem skipWs_not_ws {c : Char} (cs : List Char) (h : isWsChar c = false) :
    skipWs (c :: cs) = c :: cs := by
  simp [skipWs, h]

theorem hexVal_hexChar : ∀ n, n < 16 → hexVal (hexChar n) = some n := by
  decide

theorem parseStrBody_quote (cs : List Char) : parseStrBody ('"' :: cs) = some ([], cs) := by
  conv_lhs => rw [parseStrBody.eq_def]
  simp

theorem parseStrBody_esc (e : Char) (cs : List Char) (he : e ≠ 'u') :
    parseStrBody ('\\' :: e :: cs) =
      match escDecode e with
      | some d => (parseStrBody cs).map (fun p => (d :: p.1, p.2))
      | none => none := by
  conv_lhs => rw [parseStrBody.eq_def]
  simp [he]

theorem parseStrBody_u (h1 h2 h3 h4 : Char) (cs : List Char) :
    parseStrBody ('\\' :: 'u' :: h1 :: h2 :: h3 :: h4 :: cs) =
      match hexVal h1, hexVal h2, hexVal h3, hexVal h4 with
      | some a, some b, some c3, some d =>
        (parseStrBody cs).map
          (fun p => (Char.ofNat (((a * 16 + b) * 16 + c3) * 16 + d) :: p.1, p.2))
      | _, _, _, _ => none := by
  conv_lhs => rw [parseStrBody.eq_def]
  simp

theorem parseStrBody_plain (c : Char) (cs : List Char) (h1 : c ≠ '"') (h2 : c ≠ '\\')
    (h3 : ¬ c.toNat < 0x20) :
    parseStrBody (c :: cs) = (parseStrBody cs).map (fun p => (c :: p.1, p.2)) := by
  conv_lhs => rw [parseStrBody.eq_def]
  simp [h1, h2, h3]

theorem parseStrBody_escapeList (l rest : List Char) :
    parseStrBody (escapeList l ++ '"' :: rest) = some (l, rest) := by
  induction l with
  | nil => simp [escapeList, parseStrBody_quote]
  | cons c cs ih =>
    rw [escapeList, List.append_assoc]
    by_cases hq : c = '"'
    · subst hq; rw [show escapeChar '"' = ['\\', '"'] from rfl]
      simp [parseStrBody_esc, escDecode, ih]
    by_cases hbs : c = '\\'
    · subst hbs; rw [show escapeChar '\\' = ['\\', '\\'] from rfl]
      simp [parseStrBody_esc, escDecode, ih]
    by_cases hb8 : c = '\x08'
    · subst hb8; rw [show escapeChar '\x08' = ['\\', 'b'] from rfl]
      simp [parseStrBody_esc, escDecode, ih]
    by_cases ht9 : c = '\x09'
    · subst ht9; rw [show escapeChar '\x09' = ['\\', 't'] from rfl]
      simp [parseStrBody_esc, escDecode, ih]
    by_cases hna : c = '\x0a'
    · subst hna; rw [show escapeChar '\x0a' = ['\\', 'n'] from rfl]
      simp [parseStrBody_esc, escDecode, ih]
    by_cases hfc : c = '\x0c'
    · subst hfc; rw [show escapeChar '\x0c' = ['\\', 'f'] from rfl]
      simp [parseStrBody_esc, escDecode, ih]
    by_cases hrd : c = '\x0d'
    · subst hrd; rw [show escapeChar '\x0d' = ['\\', 'r'] from rfl]
      simp [parseStrBody_esc, escDecode, ih]
    by_cases hctl : c.toNat < 0x20
    · have hdiv : c.toNat / 16 < 16 := by omega
      have hmod : c.toNat % 16 < 16 := Nat.mod_lt _ (by norm_num)
      have e1 := hexVal_hexChar _ hdiv
      have e2 := hexVal_hexChar _ hmod
      have harith : ((0 * 16 + 0) * 16 + c.toNat / 16) * 16 + c.toNat % 16 = c.toNat := by
        omega
      rw [show escapeChar c =
            ['\\', 'u', '0', '0', hexChar (c.toNat / 16), hexChar (c.toNat % 16)]
          by simp [escapeChar, hq, hbs, hb8, ht9, hna, hfc, hrd, hctl]]
      simp only [List.cons_append, List.nil_append]
      rw [parseStrBody_u]
      rw [show hexVal ('0') = some 0 from by decide, e1, e2]
      simp only [ih, Option.map_some]
      have hsum : c.toNat / 16 * 16 + c.toNat % 16 = c.toNat := by omega
      simp [harith, hsum, Char.ofNat_toNat]
    · rw [show escapeChar c = [c] by simp [escapeChar, hq, hbs, hb8, ht9, hna, hfc, hrd, hctl]]
      simp only [List.cons_append, List.nil_append]
      rw [parseStrBody_plain c _ hq hbs hctl]
      simp [ih]

theorem parseVal_null (fuel : Nat) (r : List Char) :
    parseVal (fuel + 1) ('n' :: 'u' :: ('l' :: 'l' :: r)) = some (.null, r) := by
  conv_lhs => rw [parseVal.eq_def]
  simp [skipWs, isWsChar]

theorem parseVal_true (fuel : Nat) (r : List Char) :
    parseVal (fuel + 1) ('t' :: 'r' :: ('u' :: 'e' :: r)) = some (.bool true, r) := by
  conv_lhs => rw [parseVal.eq_def]
  simp [skipWs, isWsChar]

theorem parseVal_false (fuel : Nat) (r : List Char) :
    parseVal (fuel + 1) ('f' :: 'a' :: ('l' :: 's' :: 'e' :: r)) = some (.bool false, r) := by
  conv_lhs => rw [parseVal.eq_def]
  simp [skipWs, isWsChar]

theorem parseVal_quote (fuel : Nat) (cs : List Char) :
    parseVal (fuel + 1) ('"' :: cs) =
      (parseStrBody cs).map (fun p => (.str (String.mk p.1), p.2)) := by
  conv_lhs => rw [parseVal.eq_def]
  simp [skipWs, isWsChar]

theorem parseVal_arr (fuel : Nat) (cs : List Char) :
    parseVal (fuel + 1) ('[' :: cs) =
      (parseElems fuel cs).map (fun p => (.arr p.1, p.2)) := by
  conv_lhs => rw [parseVal.eq_def]
  simp [skipWs, isWsChar]

theorem parseVal_obj (fuel : Nat) (cs : List Char) :
    parseVal (fuel + 1) ('\x7b' :: cs) =
      (parseFields fuel cs).map (fun p => (.obj p.1, p.2)) := by
  conv_lhs => rw [parseVal.eq_def]
  simp [skipWs, isWsChar]

theorem parseElems_done (fuel : Nat) (cs : List Char) :
    parseElems (fuel + 1) (']' :: cs) = some ([], cs) := by
  conv_lhs => rw [parseElems.eq_def]
  simp [skipWs, isWsChar]

theorem parseElems_go (fuel : Nat) (c : Char) (rest : List Char)
    (hws : isWsChar c = false) (hne : c ≠ ']') :
    parseElems (fuel + 1) (c :: rest) =
      match parseVal fuel (c :: rest) with
      | none => none
      | some (x, r1) =>
        match skipWs r1 with
        | [] => none
        | c2 :: r2 =>
          if c2 = ',' then
            match parseElems fuel r2 with
            | some (xs, r3) => some (x :: xs, r3)
            | none => none
          else if c2 = ']' then some ([x], r2)
          else none := by
  conv_lhs => rw [parseElems.eq_def]
  dsimp only
  rw [skipWs_not_ws _ hws]
  simp [hne]

theorem parseFields_done (fuel : Nat) (cs : List Char) :
    parseFields (fuel + 1) ('\x7d' :: cs) = some ([], cs) := by
  conv_lhs => rw [parseFields.eq_def]
  simp [skipWs, isWsChar]

theorem parseFields_go (fuel : Nat) (cs : List Char) :
    parseFields (fuel + 1) ('"' :: cs) =
      match parseStrBody cs with
      | none => none
      | some (k, r1) =>
        match skipWs r1 with
        | [] => none
        | c2 :: r2 =>
          if c2 = ':' then
            match parseVal fuel r2 with
            | none => none
            | some (v, r3) =>
              match skipWs r3 with
              | [] => none
              | c3 :: r4 =>
                if c3 = ',' then
                  match parseFields fuel r4 with
                  | some (fs, r5) => some ((String.mk k, v) :: fs, r5)
                  | none => none
                else if c3 = '\x7d' then some ([(String.mk k, v)], r4)
                else none
          else none := by
  conv_lhs => rw [parseFields.eq_def]
  simp [skipWs, isWsChar]

theorem render_head (j : Json) (hn : noNum j = true) :
    ∃ c cs, renderJson j = c :: cs ∧ isWsChar c = false ∧ c ≠ ']' := by
  cases j with
  | num s => simp [noNum] at hn
  | null => refine ⟨'n', _, rfl, ?_, ?_⟩ <;> decide
  | bool b =>
    cases b
    · refine ⟨'f', _, rfl, ?_, ?_⟩ <;> decide
    · refine ⟨'t', _, rfl, ?_, ?_⟩ <;> decide
  | str s => refine ⟨'"', _, rfl, ?_, ?_⟩ <;> decide
  | arr xs => refine ⟨'[', _, rfl, ?_, ?_⟩ <;> decide
  | obj fs => refine ⟨'\x7b', _, rfl, ?_, ?_⟩ <;> decide

theorem parse_render_combined (fuel : Nat) :
    (∀ j rest, noNum j = true → fuelNeeded j ≤ fuel →
        parseVal fuel (renderJson j ++ rest) = some (j, rest)) ∧
    (∀ xs rest, noNumList xs = true → fuelList xs ≤ fuel →
        parseElems fuel (renderElems xs ++ ']' :: rest) = some (xs, rest)) ∧
    (∀ fs rest, noNumFields fs = true → fuelFields fs ≤ fuel →
        parseFields fuel (renderFields fs ++ '\x7d' :: rest) = some (fs, rest)) := by
  induction fuel with
  | zero =>
    refine ⟨fun j rest hn hf => ?_, fun xs rest hn hf => ?_, fun fs rest hn hf => ?_⟩
    · exact absurd hf (by have := fuelNeeded_pos j; omega)
    · exact absurd hf (by have := fuelList_pos xs; omega)
    · exact absurd hf (by have := fuelFields_pos fs; omega)
  | succ fuel ih =>
    obtain ⟨ihV, ihE, ihF⟩ := ih
    refine ⟨fun j rest hn hf => ?_, fun xs rest hn hf => ?_, fun fs rest hn hf => ?_⟩
    · cases j with
      | null => simpa [renderJson] using parseVal_null fuel rest
      | bool b =>
        cases b
        · simpa [renderJson] using parseVal_false fuel rest
        · simpa [renderJson] using parseVal_true fuel rest
      | num s => simp [noNum] at hn
      | str s =>
        rw [show renderJson (.str s) = '"' :: escapeList s.toList ++ ['"'] by simp [renderJson]]
        simp only [List.cons_append, List.append_assoc, List.singleton_append]
        rw [parseVal_quote, parseStrBody_escapeList]
        simp [show String.mk s.toList = s from rfl]
      | arr xs =>
        have hn' : noNumList xs = true := by simpa [noNum] using hn
        have hf' : fuelList xs ≤ fuel := by simp [fuelNeeded] at hf; omega
        rw [show renderJson (.arr xs) = '[' :: renderElems xs ++ [']'] by simp [renderJson]]
        simp only [List.cons_append, List.append_assoc, List.singleton_append, List.nil_append]
        rw [parseVal_arr, ihE xs rest hn' hf']
        simp
      | obj fs =>
        have hn' : noNumFields fs = true := by simpa [noNum] using hn
        have hf' : fuelFields fs ≤ fuel := by simp [fuelNeeded] at hf; omega
        rw [show renderJson (.obj fs) = '\x7b' :: renderFields fs ++ ['\x7d'] by simp [renderJson]]
        simp only [List.cons_append, List.append_assoc, List.singleton_append, List.nil_append]
        rw [parseVal_obj, ihF fs rest hn' hf']
        simp
    · match xs with
      | [] => simpa [renderElems] using parseElems_done fuel rest
      | [x] =>
        have hn' : noNum x = true := by simpa [noNumList] using hn
        have hf' : fuelNeeded x ≤ fuel := by
          simp [fuelList] at hf
          have := fuelList_pos ([] : List Json)
          omega
        obtain ⟨c0, cs0, hr, hws0, hne0⟩ := render_head x hn'
        have hv : parseVal fuel (renderJson x ++ ']' :: rest) = some (x, ']' :: rest) :=
          ihV x (']' :: rest) hn' hf'
        rw [show renderElems [x] = renderJson x by simp [renderElems]]
        rw [hr] at hv ⊢
        simp only [List.cons_append] at hv ⊢
        rw [parseElems_go fuel c0 _ hws0 hne0, hv]
        dsimp only
        rw [skipWs_not_ws _ (by decide)]
        simp
      | x :: y :: ys =>
        have hn1 : noNum x = true := by simp [noNumList] at hn; exact hn.1
        have hn2 : noNumList (y :: ys) = true := by
          simp [noNumList] at hn ⊢; exact ⟨hn.2.1, hn.2.2⟩
        have hf1 : fuelNeeded x ≤ fuel := by
          simp [fuelList] at hf
          have := fuelList_pos ys
          have := fuelNeeded_pos y
          omega
        have hf2 : fuelList (y :: ys) ≤ fuel := by
          simp [fuelList] at hf ⊢
          have := fuelNeeded_pos x
          omega
        obtain ⟨c0, cs0, hr, hws0, hne0⟩ := render_head x hn1
        have hv : parseVal fuel (renderJson x ++ ',' :: (renderElems (y :: ys) ++ ']' :: rest))
            = some (x, ',' :: (renderElems (y :: ys) ++ ']' :: rest)) :=
          ihV x _ hn1 hf1
        rw [show renderElems (x :: y :: ys) = renderJson x ++ ',' :: renderElems (y :: ys)
            by simp [renderElems]]
        simp only [List.append_assoc, List.cons_append]
        rw [hr] at hv ⊢
        simp only [List.cons_append] at hv ⊢
        rw [parseElems_go fuel c0 _ hws0 hne0, hv]
        dsimp only
        rw [skipWs_not_ws _ (by decide)]
        dsimp only
        simp [ihE (y :: ys) rest hn2 hf2]
    · match fs with
      | [] => simpa [renderFields] using parseFields_done fuel rest
      | [(k, v)] =>
        have hn' : noNum v = true := by simpa [noNumFields] using hn
        have hf' : fuelNeeded v ≤ fuel := by
          simp [fuelFields] at hf
          omega
        have hv : parseVal fuel (renderJson v ++ '\x7d' :: rest) = some (v, '\x7d' :: rest) :=
          ihV v _ hn' hf'
        rw [show renderFields [(k, v)] = '"' :: escapeList k.toList ++ '"' :: ':' :: renderJson v
            by simp [renderFields]]
        simp only [List.cons_append, List.append_assoc]
        rw [parseFields_go]
        rw [show escapeList k.toList ++ '"' :: ':' :: (renderJson v ++ '\x7d' :: rest)
              = escapeList k.toList ++ '"' :: (':' :: (renderJson v ++ '\x7d' :: rest)) from rfl]
        rw [parseStrBody_escapeList]
        dsimp only
        rw [skipWs_not_ws _ (by decide)]
        simp only [reduceIte, hv]
        rw [skipWs_not_ws _ (by decide)]
        simp [show String.mk k.toList = k from rfl]
      | (k, v) :: g :: gs =>
        have hn1 : noNum v = true := by simp [noNumFields] at hn; exact hn.1
        have hn2 : noNumFields (g :: gs) = true := by
          match g with
          | (k2, v2) =>
            simp [noNumFields] at hn ⊢
            exact ⟨hn.2.1, hn.2.2⟩
        have hf1 : fuelNeeded v ≤ fuel := by
          simp [fuelFields] at hf
          have := fuelFields_pos gs
          have := fuelNeeded_pos g.2
          omega
        have hf2 : fuelFields (g :: gs) ≤ fuel := by
          match g with
          | (k2, v2) =>
            simp [fuelFields] at hf ⊢
            have := fuelNeeded_pos v
            omega
        have hv : parseVal fuel
            (renderJson v ++ ',' :: (renderFields (g :: gs) ++ '\x7d' :: rest))
            = some (v, ',' :: (renderFields (g :: gs) ++ '\x7d' :: rest)) :=
          ihV v _ hn1 hf1
        rw [show renderFields ((k, v) :: g :: gs)
              = ('"' :: escapeList k.toList ++ '"' :: ':' :: renderJson v)
                ++ ',' :: renderFields (g :: gs) by
            match g with
            | (k2, v2) => simp [renderFields]]
        simp only [List.cons_append, List.append_assoc]
        rw [parseFields_go]
        rw [show escapeList k.toList
              ++ '"' :: ':' :: (renderJson v ++ ',' :: (renderFields (g :: gs) ++ '\x7d' :: rest))
              = escapeList k.toList
                ++ '"' :: (':' :: (renderJson v ++ ',' :: (renderFields (g :: gs) ++ '\x7d' :: rest)))
            from rfl]
        rw [parseStrBody_escapeList]
        dsimp only
        rw [skipWs_not_ws _ (by decide)]
        simp only [reduceIte, hv]
        rw [skipWs_not_ws _ (by decide)]
        dsimp only
        simp [ihF (g :: gs) rest hn2 hf2]

mutual

theorem fuelNeeded_le_render : ∀ j : Json, noNum j = true →
    fuelNeeded j ≤ 2 * (renderJson j).length
  | .null, _ => by simp [fuelNeeded, renderJson]
  | .bool b, _ => by cases b <;> simp [fuelNeeded, renderJson]
  | .num s, h => by simp [noNum] at h
  | .str s, _ => by simp [fuelNeeded, renderJson]; omega
  | .arr xs, h => by
      have hx := fuelList_le_render xs (by simpa [noNum] using h)
      simp only [fuelNeeded, renderJson, List.length_cons, List.length_append,
        List.length_singleton]
      omega
  | .obj fs, h => by
      have hx := fuelFields_le_render fs (by simpa [noNum] using h)
      simp only [fuelNeeded, renderJson, List.length_cons, List.length_append,
        List.length_singleton]
      omega

theorem fuelList_le_render : ∀ xs : List Json, noNumList xs = true →
    fuelList xs ≤ 2 * (renderElems xs).length + 3
  | [], _ => by simp [fuelList, renderElems]
  | [x], h => by
      have hx := fuelNeeded_le_render x (by simpa [noNumList] using h)
      simp only [fuelList, renderElems]
      omega
  | x :: y :: ys, h => by
      have h1 : noNum x = true := by simp [noNumList] at h; exact h.1
      have h2 : noNumList (y :: ys) = true := by
        simp [noNumList] at h ⊢; exact ⟨h.2.1, h.2.2⟩
      have hx := fuelNeeded_le_render x h1
      have hy := fuelList_le_render (y :: ys) h2
      simp only [fuelList, renderElems, List.length_append, List.length_cons] at hy ⊢
      omega

theorem fuelFields_le_render : ∀ fs : List (String × Json), noNumFields fs = true →
    fuelFields fs ≤ 2 * (renderFields fs).length + 3
  | [], _ => by simp [fuelFields, renderFields]
  | [(k, v)], h => by
      have hx := fuelNeeded_le_render v (by simpa [noNumFields] using h)
      simp only [fuelFields, renderFields, List.length_cons, List.length_append]
      omega
  | (k, v) :: g :: gs, h => by
      have h1 : noNum v = true := by simp [noNumFields] at h; exact h.1
      have h2 : noNumFields (g :: gs) = true := by
        match g with
        | (k2, v2) => simp [noNumFields] at h ⊢; exact ⟨h.2.1, h.2.2⟩
      have hx := fuelNeeded_le_render v h1
      have hy := fuelFields_le_render (g :: gs) h2
      simp only [fuelFields, renderFields, List.length_append, List.length_cons] at hy ⊢
      omega

end

theorem parseJson_render (j : Json) (hn : noNum j = true) :
    parseJson (String.mk (renderJson j)) = some j := by
  have hfuel : fuelNeeded j ≤ 2 * (renderJson j).length + 1 := by
    have := fuelNeeded_le_render j hn
    omega
  have h1 := (parse_render_combined (2 * (renderJson j).length + 1)).1 j [] hn hfuel
  rw [List.append_nil] at h1
  show (match parseVal (2 * (renderJson j).length + 1) (renderJson j) with
    | some (j, rest) => if skipWs rest = [] then some j else none
    | none => none) = some j
  rw [h1]
  simp [skipWs]

theorem noNumFields_strMap (l : List (String × String)) :
    noNumFields (l.map (fun kv => (kv.1, Json.str kv.2))) = true := by
  induction l with
  | nil => simp [noNumFields]
  | cons kv l ih =>
    obtain ⟨a, b⟩ := kv
    simp [noNumFields, noNum, ih]

theorem noNumList_strMap (l : List String) :
    noNumList (l.map Json.str) = true := by
  induction l with
  | nil => simp [noNumList]
  | cons a l ih => simp [noNumList, noNum, ih]

theorem ctxToJson_noNum (c : SSRContext) : noNum (ctxToJson c) = true := by
  simp [ctxToJson, noNum, noNumFields, noNumList, noNumFields_strMap, noNumList_strMap]

theorem strMap_inj (l1 : List (String × String)) : ∀ l2,
    l1.map (fun kv => (kv.1, Json.str kv.2)) = l2.map (fun kv => (kv.1, Json.str kv.2)) →
    l1 = l2 := by
  induction l1 with
  | nil =>
    intro l2 h
    cases l2 with
    | nil => rfl
    | cons kv t => simp at h
  | cons kv t ih =>
    intro l2 h
    cases l2 with
    | nil => simp at h
    | cons kv2 t2 =>
      obtain ⟨a, b⟩ := kv
      obtain ⟨a2, b2⟩ := kv2
      simp only [List.map_cons, List.cons.injEq, Prod.mk.injEq, Json.str.injEq] at h
      rw [h.1.1, h.1.2, ih t2 h.2]

theorem strListMap_inj (l1 : List String) : ∀ l2,
    l1.map Json.str = l2.map Json.str → l1 = l2 := by
  induction l1 with
  | nil =>
    intro l2 h
    cases l2 with
    | nil => rfl
    | cons a t => simp at h
  | cons a t ih =>
    intro l2 h
    cases l2 with
    | nil => simp at h
    | cons a2 t2 =>
      simp only [List.map_cons, List.cons.injEq, Json.str.injEq] at h
      rw [h.1, ih t2 h.2]

theorem ctxToJson_inj (c1 c2 : SSRContext) (h : ctxToJson c1 = ctxToJson c2) : c1 = c2 := by
  simp only [ctxToJson, Json.obj.injEq, List.cons.injEq, Prod.mk.injEq, Json.str.injEq,
    Json.arr.injEq, and_true, true_and] at h
  obtain ⟨hloc, htr, hpre2⟩ := h
  obtain ⟨l1, t1, p1⟩ := c1
  obtain ⟨l2, t2, p2⟩ := c2
  simp only at hloc htr hpre2
  subst hloc
  rw [strMap_inj _ _ htr, strListMap_inj _ _ hpre2]

theorem runOps_append (m : Registry) (xs ys : List Op) :
    runOps m (xs ++ ys) = runOps (runOps m xs) ys := by
  induction xs generalizing m with
  | nil => rfl
  | cons op xs ih => simp [runOps, ih]

theorem filter_map_active (active : List Nat) (id : Nat) (s : TranslationState) :
    ((active.map (fun i => (i, s))).filter (fun q => q.1 == id)).map Prod.snd
      = List.replicate (active.count id) s := by
  induction active with
  | nil => simp
  | cons a t ih =>
    by_cases ha : a = id
    · subst ha
      simp [List.count_cons, ih, List.replicate_succ]
    · simp [List.count_cons, ha, ih, Ne.symm ha]

theorem deliveredTo_set (m : Registry) (id : Nat) (s : TranslationState) :
    deliveredTo id (stepOp m (.set s))
      = deliveredTo id m ++ List.replicate (m.active.count id) s := by
  simp [stepOp, deliveredTo, List.filter_append, filter_map_active]

theorem deliveredTo_sub (m : Registry) (id id2 : Nat) :
    deliveredTo id (stepOp m (.sub id2)) = deliveredTo id m := by
  simp only [stepOp]
  split <;> simp [deliveredTo]

theorem deliveredTo_unsub (m : Registry) (id id2 : Nat) :
    deliveredTo id (stepOp m (.unsub id2)) = deliveredTo id m := by
  simp [stepOp, deliveredTo]

theorem count_sub_self (m : Registry) (id : Nat) (h : m.active.count id = 0) :
    (stepOp m (.sub id)).active.count id = 1 := by
  have hmem : id ∉ m.active := by
    intro hm
    have := List.count_pos_iff.mpr hm
    omega
  simp [stepOp, hmem, h]

theorem count_unsub_self (m : Registry) (id : Nat) :
    (stepOp m (.unsub id)).active.count id = 0 := by
  simp only [stepOp]
  rw [List.count_eq_zero]
  intro hm
  have := List.of_mem_filter hm
  simp at this

theorem runOps_inactive (ops : List Op) (m : Registry) (id : Nat)
    (h : m.active.count id = 0) (hno : Op.sub id ∉ ops) :
    (runOps m ops).active.count id = 0 ∧
      deliveredTo id (runOps m ops) = deliveredTo id m := by
  induction ops generalizing m with
  | nil => exact ⟨h, rfl⟩
  | cons op ops ih =>
    have hno' : Op.sub id ∉ ops := by intro hm; exact hno (List.mem_cons_of_mem _ hm)
    match op with
    | .sub id2 =>
      have hne : id2 ≠ id := by
        intro he; subst he; exact hno (List.mem_cons_self _ _)
      have hcount : (stepOp m (.sub id2)).active.count id = 0 := by
        simp only [stepOp]
        split
        · exact h
        · simp [List.count_append, h, List.count_cons, hne, Ne.symm hne]
      have := ih (stepOp m (.sub id2)) hcount hno'
      simpa [runOps, deliveredTo_sub] using this
    | .unsub id2 =>
      have hcount : (stepOp m (.unsub id2)).active.count id = 0 := by
        simp only [stepOp]
        have hsub : List.Sublist (m.active.filter (fun x => x ≠ id2)) m.active :=
          List.filter_sublist _
        have := hsub.count_le id
        omega
      have := ih (stepOp m (.unsub id2)) hcount hno'
      simpa [runOps, deliveredTo_unsub] using this
    | .set s =>
      have hcount : (stepOp m (.set s)).active.count id = 0 := by simp [stepOp, h]
      have := ih (stepOp m (.set s)) hcount hno'
      simp only [runOps]
      exact ⟨this.1, by rw [this.2, deliveredTo_set, h, List.replicate_zero,
        List.append_nil]⟩

theorem runOps_active (ops : List Op) (m : Registry) (id : Nat)
    (h : m.active.count id = 1) (hno : Op.unsub id ∉ ops) :
    (runOps m ops).active.count id = 1 ∧
      deliveredTo id (runOps m ops) = deliveredTo id m ++ setSnapshots ops := by
  induction ops generalizing m with
  | nil => exact ⟨h, by simp [runOps, setSnapshots]⟩
  | cons op ops ih =>
    have hno' : Op.unsub id ∉ ops := by intro hm; exact hno (List.mem_cons_of_mem _ hm)
    match op with
    | .sub id2 =>
      have hcount : (stepOp m (.sub id2)).active.count id = 1 := by
        simp only [stepOp]
        split
        · exact h
        · have hne : id2 ≠ id := by
            intro he; subst he
            rename_i hmem
            have := List.count_pos_iff.mp (by omega : 0 < m.active.count id2)
            exact hmem this
          simp [List.count_append, h, List.count_cons, hne, Ne.symm hne]
      have := ih (stepOp m (.sub id2)) hcount hno'
      simpa [runOps, deliveredTo_sub, setSnapshots] using this
    | .unsub id2 =>
      have hne : id2 ≠ id := by
        intro he; subst he; exact hno (List.mem_cons_self _ _)
      have hcount : (stepOp m (.unsub id2)).active.count id = 1 := by
        simp only [stepOp]
        rw [List.count_filter (by simp [Ne.symm hne])]
        exact h
      have := ih (stepOp m (.unsub id2)) hcount hno'
      simpa [runOps, deliveredTo_unsub, setSnapshots] using this
    | .set s =>
      have hcount : (stepOp m (.set s)).active.count id = 1 := by simp [stepOp, h]
      have := ih (stepOp m (.set s)) hcount hno'
      simp only [runOps, setSnapshots, List.filterMap_cons]
      refine ⟨this.1, ?_⟩
      rw [this.2, deliveredTo_set, h]
      simp [setSnapshots]

/-! ### The claims -/

/-- C1: for every key and params, if the engine translate throws, the
manager `translate(key, params)` returns the raw key string (the Lean
function is total, modelling that it never raises), and the warning is
logged exactly when the configured debug policy is the structured record
with `logMissingKeys` equal to `true`. -/
theorem C1_translate_fallback (svc : TranslationService) (cfg : ReactTranslationConfig)
    (st : TranslationState) (key : String) (params : Option Params) (e : Err)
    (h : svc.translate key st.locale params = .error e) :
    (translate svc cfg st key params).1 = key ∧
    ((translate svc cfg st key params).2 = true ↔
      ∃ en lp, cfg.debug = .asRecord en (some true) lp) := by
  unfold translate
  rw [h]
  cases hd : cfg.debug with
  | asBool b => simp
  | asRecord en lmk lp =>
    refine ⟨rfl, ?_⟩
    simp only [decide_eq_true_eq]
    constructor
    · intro hl
      exact ⟨en, lp, by rw [hl]⟩
    · rintro ⟨en2, lp2, heq⟩
      simp only [DebugConfig.asRecord.injEq] at heq
      exact heq.2.1

/-- C1 witness: a concrete failing engine with the logging debug record. -/
theorem C1_translate_fallback_witness :
    (translate failingService loggingConfig initialState ("missing.key") none).1
        = ("missing.key") ∧
    ((translate failingService loggingConfig initialState ("missing.key") none).2 = true ↔
      ∃ en lp, loggingConfig.debug = .asRecord en (some true) lp) :=
  C1_translate_fallback failingService loggingConfig initialState ("missing.key") none
    ("boom") rfl

/-- C2: for every SSRContext record, deserializing its serialization gives
back exactly the record's JSON value (which determines the record
uniquely, second conjunct). -/
theorem C2_serialize_roundtrip (c : SSRContext) :
    deserializeContext (serializeContext c) = ctxToJson c ∧
    (∀ c2 : SSRContext, ctxToJson c2 = ctxToJson c → c2 = c) := by
  constructor
  · unfold deserializeContext serializeContext
    rw [parseJson_render _ (ctxToJson_noNum c)]
  · intro c2 h
    exact ctxToJson_inj c2 c h

/-- C2 witness: the round trip evaluated at a concrete context. -/
theorem C2_serialize_roundtrip_witness :
    deserializeContext (serializeContext sampleContext) = ctxToJson sampleContext ∧
    sampleContext = sampleContext :=
  ⟨(C2_serialize_roundtrip sampleContext).1,
   (C2_serialize_roundtrip sampleContext).2 sampleContext rfl⟩

/-- C3 counterexample: the input `"\x7b\x7d"` (the empty JSON object) is
valid JSON missing every SSRContext field, yet `deserializeContext`
returns the parsed empty object unchanged, not the fixed default context —
refuting the claim that every malformed input (including valid JSON
missing the fields) yields the default. -/
theorem C3_counterexample :
    deserializeContext ("\x7b\x7d") = Json.obj [] ∧
    Json.obj [] ≠ ctxToJson defaultContext := by
  constructor
  · rfl
  · simp [ctxToJson, defaultContext]

/-- C3 amended: only when `JSON.parse` itself fails does
`deserializeContext` return the fixed default context (and it is total,
never raising); when the input parses as JSON — even JSON missing the
SSRContext fields — the parsed value is returned unchanged. -/
theorem C3_deserialize_default (s : String) :
    (parseJson s = none → deserializeContext s = ctxToJson defaultContext) ∧
    (∀ j, parseJson s = some j → deserializeContext s = j) := by
  constructor
  · intro h
    unfold deserializeContext
    rw [h]
  · intro j h
    unfold deserializeContext
    rw [h]

/-- C3 witness: a concrete non-JSON input mapped to the default context. -/
theorem C3_deserialize_default_witness :
    parseJson ("invalid-json") = none ∧
    deserializeContext ("invalid-json") = ctxToJson defaultContext :=
  ⟨rfl, (C3_deserialize_default ("invalid-json")).1 rfl⟩

/-- C4: `setLocale` with the current locale returns the state unchanged
with an empty event trace — no state mutation, no engine invocation, no
listener notification — and resolves successfully. -/
theorem C4_setLocale_same_locale (svc : TranslationService) (st : TranslationState)
    (locale : String) (h : st.locale = locale) :
    setLocale svc st locale = (st, [], .ok ()) := by
  simp [setLocale, h]

/-- C4 witness: same-locale call on the initial state, with an engine
whose every operation would throw if invoked. -/
theorem C4_setLocale_same_locale_witness :
    setLocale failingService initialState ("en") = (initialState, [], .ok ()) :=
  C4_setLocale_same_locale failingService initialState ("en") rfl

/-- C5: when `loadTranslations` rethrows an engine exception `e` (in the
model: any engine call inside it fails), the final state stores exactly
that error, clears `isLoading`, and keeps `translations` unchanged. -/
theorem C5_load_error_surfaced (svc : TranslationService) (st : TranslationState)
    (locale : String) (e : Err)
    (h : (loadTranslations svc st locale).2.2 = .error e) :
    (loadTranslations svc st locale).1.error = some e ∧
    (loadTranslations svc st locale).1.isLoading = false ∧
    (loadTranslations svc st locale).1.translations = st.translations := by
  cases hr : svc.reloadTranslations with
  | error e2 =>
    simp [loadTranslations, hr] at h ⊢
    simp [h]
  | ok u =>
    cases u
    cases hk : svc.getKeys locale with
    | error e2 =>
      simp [loadTranslations, hr, hk] at h ⊢
      simp [h]
    | ok keys =>
      rcases hb : buildTranslations svc locale keys with ⟨evs, r⟩
      cases r with
      | error e2 =>
        simp [loadTranslations, hr, hk, hb] at h ⊢
        simp [h]
      | ok m =>
        simp [loadTranslations, hr, hk, hb] at h

/-- C5 witness: the failing engine surfaces its exception into the state. -/
theorem C5_load_error_surfaced_witness :
    ((loadTranslations failingService initialState ("fr")).2.2 = .error ("boom")) ∧
    (loadTranslations failingService initialState ("fr")).1.error = some ("boom") ∧
    (loadTranslations failingService initialState ("fr")).1.isLoading = false ∧
    (loadTranslations failingService initialState ("fr")).1.translations
      = initialState.translations :=
  ⟨rfl, C5_load_error_surfaced failingService initialState ("fr") ("boom") rfl⟩

/-- C6: over any interaction trace, a listener subscribed at one point and
unsubscribed later receives exactly the snapshots of the `setState`
transitions between those two points, in order: nothing from before its
subscription, every transition while subscribed, and nothing after its
unsubscribe function runs, regardless of subsequent mutations. -/
theorem C6_subscription_contract (m0 : Registry) (pre mid post : List Op) (id : Nat)
    (h0 : m0.active.count id = 0)
    (hpre : Op.sub id ∉ pre) (hmid : Op.unsub id ∉ mid) (hpost : Op.sub id ∉ post) :
    deliveredTo id (runOps m0 (pre ++ Op.sub id :: mid ++ Op.unsub id :: post))
      = deliveredTo id m0 ++ setSnapshots mid := by
  have h1 := runOps_inactive pre m0 id h0 hpre
  have h2count := count_sub_self (runOps m0 pre) id h1.1
  have h3 := runOps_active mid (stepOp (runOps m0 pre) (.sub id)) id h2count hmid
  have h4count := count_unsub_self (runOps (stepOp (runOps m0 pre) (.sub id)) mid) id
  have h5 := runOps_inactive post
    (stepOp (runOps (stepOp (runOps m0 pre) (.sub id)) mid) (.unsub id)) id h4count hpost
  rw [runOps_append, runOps_append]
  rw [show runOps (runOps m0 pre) (Op.sub id :: mid)
        = runOps (stepOp (runOps m0 pre) (Op.sub id)) mid from rfl]
  rw [show runOps (runOps (stepOp (runOps m0 pre) (Op.sub id)) mid) (Op.unsub id :: post)
        = runOps (stepOp (runOps (stepOp (runOps m0 pre) (Op.sub id)) mid) (Op.unsub id))
            post
      from rfl]
  rw [h5.2, deliveredTo_unsub, h3.2, deliveredTo_sub, h1.2]

/-- C6 witness: one transition inside the subscription window, one after. -/
theorem C6_subscription_contract_witness :
    deliveredTo 0 (runOps emptyRegistry
        ([] ++ Op.sub 0 :: [Op.set initialState] ++ Op.unsub 0 :: [Op.set initialState]))
      = deliveredTo 0 emptyRegistry ++ setSnapshots [Op.set initialState] :=
  C6_subscription_contract emptyRegistry [] [Op.set initialState] [Op.set initialState] 0
    rfl (by simp) (by simp) (by simp)

/-- C7: the manager `clearCache()` only delegates to the engine cache
clear, leaving the whole manager state (in particular `translations`)
unchanged, while the Redux `clearCache` reducer sets the store mirrored
`translations` field to the empty map. -/
theorem C7_clearCache_frame (st : TranslationState) (rst : ReduxTranslationState)
    (now : Nat) :
    (clearCache st).1 = st ∧
    (clearCache st).2 = [Event.engineClearCache] ∧
    (clearCacheReducer now rst).translations = [] :=
  ⟨rfl, rfl, rfl⟩

/-- C8 counterexample: at a concrete snapshot the adapter subscription
dispatches five actions, so the dispatch count is not four as claimed. -/
theorem C8_counterexample : (reduxSyncDispatches initialState).length ≠ 4 := by
  simp [reduxSyncDispatches]

/-- C8 amended: on every manager state transition the Redux adapter
dispatches exactly five discrete actions, in order: set translations, set
locale, set loading, set error, set initialized. -/
theorem C8_redux_sync_dispatches (s : TranslationState) :
    reduxSyncDispatches s =
      [.setTranslations s.translations, .setLocale s.locale, .setLoading s.isLoading,
       .setError s.error, .setInitialized s.isInitialized] ∧
    (reduxSyncDispatches s).length = 5 :=
  ⟨rfl, rfl⟩

/-- C9: in the overlapping `setLocale('fr')` then `setLocale('es')`
scenario where the `'es'` load completes before the `'fr'` load, the final
locale is `'es'` (set synchronously at call time) while the final
translations are the `'fr'` map — completion order, not call order,
decides the last writer, as no generation counter discards stale loads. -/
theorem C9_overlapping_setLocale (st0 : TranslationState)
    (frMap esMap : List (String × String)) (h : st0.locale ≠ ("fr")) :
    (racedFinalState st0 frMap esMap).locale = ("es") ∧
    (racedFinalState st0 frMap esMap).translations = frMap := by
  unfold racedFinalState setLocaleStart setLocaleFinish
  rw [if_neg h]
  simp

/-- C9 witness: the race evaluated from the initial `en` state. -/
theorem C9_overlapping_setLocale_witness :
    (racedFinalState initialState [(("k"), ("fr-v"))] [(("k"), ("es-v"))]).locale
        = ("es") ∧
    (racedFinalState initialState [(("k"), ("fr-v"))] [(("k"), ("es-v"))]).translations
        = [(("k"), ("fr-v"))] :=
  C9_overlapping_setLocale initialState [(("k"), ("fr-v"))] [(("k"), ("es-v"))]
    (by simp [initialState])

/-- C10: whenever a direct `loadTranslations(locale)` call resolves
successfully, the final state has `isInitialized` set, `isLoading`
cleared, and `translations` replaced by the map built from the engine's
keys — success of this load path alone marks the manager initialized. -/
theorem C10_load_success_initializes (svc : TranslationService) (st : TranslationState)
    (locale : String) (h : (loadTranslations svc st locale).2.2 = .ok ()) :
    (loadTranslations svc st locale).1.isInitialized = true ∧
    (loadTranslations svc st locale).1.isLoading = false ∧
    ∃ keys m, svc.getKeys locale = .ok keys ∧
      (buildTranslations svc locale keys).2 = .ok m ∧
      (loadTranslations svc st locale).1.translations = m := by
  cases hr : svc.reloadTranslations with
  | error e => simp [loadTranslations, hr] at h
  | ok u =>
    cases u
    cases hk : svc.getKeys locale with
    | error e => simp [loadTranslations, hr, hk] at h
    | ok keys =>
      rcases hb : buildTranslations svc locale keys with ⟨evs, r⟩
      cases r with
      | error e => simp [loadTranslations, hr, hk, hb] at h
      | ok m =>
        refine ⟨?_, ?_, keys, m, rfl, ?_, ?_⟩ <;> simp [loadTranslations, hr, hk, hb]

/-- C10 witness: a successful load through the one-key working engine. -/
theorem C10_load_success_initializes_witness :
    ((loadTranslations workingService initialState ("en")).2.2 = .ok ()) ∧
    (loadTranslations workingService initialState ("en")).1.isInitialized = true ∧
    (loadTranslations workingService initialState ("en")).1.isLoading = false ∧
    ∃ keys m, workingService.getKeys ("en") = .ok keys ∧
      (buildTranslations workingService ("en") keys).2 = .ok m ∧
      (loadTranslations workingService initialState ("en")).1.translations = m :=
  ⟨rfl, C10_load_success_initializes workingService initialState ("en") rfl⟩

end I18n
